import Mathlib

/-!
Verification of the turn-based tactical game core (board/unit simulation,
full-turn planners, minimax and MCTS agents, and the self-play trainer's
fitness aggregation).

The Python sources are embedded shallowly:

* Python `float` arithmetic is modelled by exact rational arithmetic (`ℚ`).
  The only irrational constant the game uses, `math.sqrt(2)`, is replaced by
  the exact binary64 value of `math.sqrt(2)` (a rational number).  No claim
  below depends on binary64 rounding of intermediate results.
* mutable objects are modelled by explicit state passing; Python's
  object-identity semantics (needed by the reversible planner, which stores
  references to unit objects in its restore tokens) is modelled by keying
  units by their unique integer `id` and carrying an explicit object store.
* fallible operations return `Bool × state` (the Python methods return a
  success flag and mutate in place) or `Option`.

Because the kernel cannot reduce `Rat.add`/`Rat.mul`/`Rat.div`/`Rat.inv`
applications, the embedding computes with thin wrappers (`qadd`, `qsub`,
`qmul`, `qdiv`, `qfloor`) built directly on `mkRat`, which the kernel does
reduce; each wrapper is proved equal to the corresponding Mathlib operation,
so theorems may freely rewrite between the two forms.
-/

namespace Game

/-! ### Kernel-computable rational arithmetic -/

theorem mkRat_add_mkRat (n1 n2 : ℤ) (d1 d2 : ℕ) (h1 : d1 ≠ 0) (h2 : d2 ≠ 0) :
    mkRat (n1 * d2 + n2 * d1) (d1 * d2) = mkRat n1 d1 + mkRat n2 d2 := by
  simp only [Rat.mkRat_eq_div]
  have h1' : (d1 : ℚ) ≠ 0 := Nat.cast_ne_zero.mpr h1
  have h2' : (d2 : ℚ) ≠ 0 := Nat.cast_ne_zero.mpr h2
  push_cast
  field_simp

theorem mkRat_sub_mkRat (n1 n2 : ℤ) (d1 d2 : ℕ) (h1 : d1 ≠ 0) (h2 : d2 ≠ 0) :
    mkRat (n1 * d2 - n2 * d1) (d1 * d2) = mkRat n1 d1 - mkRat n2 d2 := by
  simp only [Rat.mkRat_eq_div]
  have h1' : (d1 : ℚ) ≠ 0 := Nat.cast_ne_zero.mpr h1
  have h2' : (d2 : ℚ) ≠ 0 := Nat.cast_ne_zero.mpr h2
  push_cast
  field_simp
  ring

theorem mkRat_mul_mkRat (n1 n2 : ℤ) (d1 d2 : ℕ) (h1 : d1 ≠ 0) (h2 : d2 ≠ 0) :
    mkRat (n1 * n2) (d1 * d2) = mkRat n1 d1 * mkRat n2 d2 := by
  simp only [Rat.mkRat_eq_div]
  have h1' : (d1 : ℚ) ≠ 0 := Nat.cast_ne_zero.mpr h1
  have h2' : (d2 : ℚ) ≠ 0 := Nat.cast_ne_zero.mpr h2
  push_cast
  field_simp

/-- Addition on `ℚ`, computable by the kernel. -/
def qadd (a b : ℚ) : ℚ := mkRat (a.num * b.den + b.num * a.den) (a.den * b.den)

/-- Subtraction on `ℚ`, computable by the kernel. -/
def qsub (a b : ℚ) : ℚ := mkRat (a.num * b.den - b.num * a.den) (a.den * b.den)

/-- Multiplication on `ℚ`, computable by the kernel. -/
def qmul (a b : ℚ) : ℚ := mkRat (a.num * b.num) (a.den * b.den)

/-- Division on `ℚ`, computable by the kernel (division by zero gives zero,
as in Mathlib; Python would raise, but the game never divides by zero). -/
def qdiv (a b : ℚ) : ℚ := Rat.divInt (a.num * b.den) (a.den * b.num)

/-- Floor of a rational as an integer, computable by the kernel. -/
def qfloor (a : ℚ) : ℤ := a.num / (a.den : ℤ)

theorem qadd_eq (a b : ℚ) : qadd a b = a + b := by
  rw [qadd, mkRat_add_mkRat _ _ _ _ a.den_nz b.den_nz, Rat.mkRat_self, Rat.mkRat_self]

theorem qsub_eq (a b : ℚ) : qsub a b = a - b := by
  rw [qsub, mkRat_sub_mkRat _ _ _ _ a.den_nz b.den_nz, Rat.mkRat_self, Rat.mkRat_self]

theorem qmul_eq (a b : ℚ) : qmul a b = a * b := by
  rw [qmul, mkRat_mul_mkRat _ _ _ _ a.den_nz b.den_nz, Rat.mkRat_self, Rat.mkRat_self]

theorem qdiv_eq (a b : ℚ) : qdiv a b = a / b := by
  rw [qdiv, Rat.divInt_eq_div]
  rcases eq_or_ne b.num 0 with hb | hb
  · have hb0 : b = 0 := by
      have := Rat.num_div_den b
      rw [hb] at this
      simpa using this.symm
    subst hb0
    simp
  · have ha' : (a.den : ℚ) ≠ 0 := Nat.cast_ne_zero.mpr a.den_nz
    have hbd : (b.den : ℚ) ≠ 0 := Nat.cast_ne_zero.mpr b.den_nz
    have hb' : (b.num : ℚ) ≠ 0 := Int.cast_ne_zero.mpr hb
    conv_rhs => rw [← Rat.num_div_den a, ← Rat.num_div_den b]
    push_cast
    rw [div_div_div_comm, ← div_div]
    field_simp
    exact Or.inl (mul_comm _ _)

theorem qfloor_eq (a : ℚ) : qfloor a = ⌊a⌋ := by
  rw [qfloor]
  conv_rhs => rw [← Rat.mkRat_self a, Rat.mkRat_eq_div]
  rw [Rat.floor_intCast_div_natCast]

/-! ### Data model (`utils/constants.py`, `backend/units.py`, `backend/board.py`) -/

/-- Terrain kinds, from `TileType` in `utils/constants.py`. -/
inductive TileType
  | plain
  | hill
  | mountain
  | water
deriving DecidableEq, Repr

/-- The four unit archetypes, from `UnitType` in `utils/constants.py`; a
`backend/units.py` unit stores the archetype's string value in its `name`
field. -/
inductive UnitName
  | swordsman
  | archer
  | spearman
  | horseman
deriving DecidableEq, Repr

/-- A unit object, from `Unit.__init__` in `backend/units.py`.  Numeric stats
are Python ints (`ℤ`); movement is tracked in floats (`ℚ`).  `id` is the
globally unique identity assigned from the class counter; the embedding uses
it to model Python object identity. -/
structure Unit where
  id : ℕ
  name : UnitName
  x : ℤ
  y : ℤ
  team : ℤ
  max_hp : ℤ
  health : ℤ
  armor : ℤ
  attack_power : ℤ
  attack_range : ℤ
  move_range : ℚ
  move_points : ℚ
  has_attacked : Bool
  has_acted : Bool
  last_damage : ℤ
  damage_timer : ℤ
deriving DecidableEq, Repr

/-- The board, from `GameState` in `backend/board.py` (the rendering-only
`cell_size` field is dropped).  `tile_map` is indexed `tile_map[y][x]`. -/
structure GameState where
  width : ℕ
  height : ℕ
  tile_map : List (List TileType)
  units : List Unit
deriving DecidableEq, Repr

/-- Python list indexing `l[i]`: a small negative index wraps around from the
end, anything out of range raises (modelled as `none`). -/
def pyGet (l : List α) (i : ℤ) : Option α :=
  if 0 ≤ i then l.get? i.toNat
  else if (-i).toNat ≤ l.length then l.get? (l.length - (-i).toNat)
  else none

/-- Lookup `tile_map[y][x]` as Python would, `none` on `IndexError`. -/
def GameState.tileOpt (gs : GameState) (x y : ℤ) : Option TileType :=
  (pyGet gs.tile_map y).bind (fun row => pyGet row x)

/-- `GameState.tile` from `backend/board.py`; all callers in the verified code
check `in_bounds` first, so the `plain` default is never observed. -/
def GameState.tile (gs : GameState) (x y : ℤ) : TileType :=
  (gs.tileOpt x y).getD TileType.plain

/-- `GameState.in_bounds` from `backend/board.py`. -/
def GameState.in_bounds (gs : GameState) (x y : ℤ) : Bool :=
  decide (0 ≤ x) && decide (x < (gs.width : ℤ)) && decide (0 ≤ y) && decide (y < (gs.height : ℤ))

/-- `TERRAIN_MOVE_COST` from `utils/constants.py`. -/
def TERRAIN_MOVE_COST : TileType → ℚ
  | TileType.plain => 1
  | TileType.hill => 2
  | TileType.mountain => 9999
  | TileType.water => 2

/-- `GameState.move_cost` from `backend/board.py`. -/
def GameState.move_cost (gs : GameState) (x y : ℤ) : ℚ :=
  TERRAIN_MOVE_COST (gs.tile x y)

/-- `GameState.get_unit_at` from `backend/board.py`: the first unit whose
position matches, scanning the unit list in order. -/
def GameState.get_unit_at (gs : GameState) (x y : ℤ) : Option Unit :=
  gs.units.find? (fun u => u.x == x && u.y == y)

/-- `GameState.get_unit_by_id`: id lookup on the unit list (declared on the
board/API layer of the sources; the unique-id counter makes it Python object
identity). -/
def GameState.get_unit_by_id (gs : GameState) (uid : ℕ) : Option Unit :=
  gs.units.find? (fun u => u.id == uid)

/-- `GameState.remove_dead` from `backend/board.py`. -/
def GameState.remove_dead (units : List Unit) : List Unit :=
  units.filter (fun u => decide (0 < u.health))

/-- `EPSILON` from `utils/constants.py` (tolerance for float move points). -/
def EPSILON : ℚ := mkRat 3 5

/-- `HEALTH_INFLUENCE` from `utils/constants.py`. -/
def HEALTH_INFLUENCE : ℚ := mkRat 9 10

/-- `DAMAGE_DISPLAY_TIME` from `utils/constants.py`. -/
def DAMAGE_DISPLAY_TIME : ℤ := 30

/-- `EFFECTIVENESS` from `utils/constants.py`: attacker-vs-defender damage
multipliers; pairs missing from the table (in particular mirror matches)
default to `1.0` via the chained `.get(..)` calls in `calculate_damage`. -/
def EFFECTIVENESS : UnitName → UnitName → ℚ
  | UnitName.archer, UnitName.horseman => mkRat 4 5
  | UnitName.horseman, UnitName.archer => mkRat 13 10
  | UnitName.horseman, UnitName.swordsman => mkRat 11 10
  | UnitName.horseman, UnitName.spearman => mkRat 4 5
  | UnitName.spearman, UnitName.swordsman => mkRat 9 10
  | UnitName.spearman, UnitName.horseman => mkRat 13 10
  | _, _ => 1

/-- `TERRAIN_ATTACK_BONUS` from `utils/constants.py`. -/
def TERRAIN_ATTACK_BONUS : TileType → ℚ
  | TileType.hill => mkRat 1 10
  | TileType.water => mkRat (-1) 10
  | _ => 0

/-- `TERRAIN_DEFENSE_BONUS` from `utils/constants.py`. -/
def TERRAIN_DEFENSE_BONUS : TileType → ℚ
  | TileType.hill => mkRat 1 5
  | TileType.water => mkRat 1 10
  | _ => 0

/-! ### Damage (`calculate_damage` in `utils/helpers.py`) -/

/-- The terrain multiplier `(1 + atk_bonus) * (1 - def_bonus)` of
`calculate_damage`.  With no `game_state` argument both bonuses stay `0.0`;
with one, both tiles are read inside a single `try`, so if either lookup
raises both bonuses stay `0.0`. -/
def terrain_mult_of (gstate : Option GameState) (attacker defender : Unit) : ℚ :=
  match gstate with
  | none => 1
  | some gs =>
    match gs.tileOpt attacker.x attacker.y, gs.tileOpt defender.x defender.y with
    | some ta, some td =>
      qmul (qadd 1 (TERRAIN_ATTACK_BONUS ta)) (qsub 1 (TERRAIN_DEFENSE_BONUS td))
    | _, _ => 1

/-- The damage formula of `calculate_damage` with the terrain multiplier as a
parameter: health-scaled attack power, multiplicative armor reduction,
type-effectiveness multiplier, and a floor of 1 damage
(`max(1, int(final_damage))`; all intermediate values are nonnegative, so
Python's `int` truncation is the rational floor). -/
def calc_damage_core (attacker defender : Unit) (terrain_mult : ℚ) : ℤ :=
  let health_frac := qdiv (attacker.health : ℚ) (attacker.max_hp : ℚ)
  let health_factor := qadd (qsub 1 HEALTH_INFLUENCE) (qmul HEALTH_INFLUENCE health_frac)
  let effective_power := qmul (attacker.attack_power : ℚ) health_factor
  let reduction := qdiv 100 (qadd 100 (qmul (defender.armor : ℚ) 10))
  let reduced := qmul effective_power reduction
  let type_mult := EFFECTIVENESS attacker.name defender.name
  let final_damage := qmul (qmul reduced type_mult) terrain_mult
  max 1 (qfloor final_damage)

/-- `calculate_damage` from `utils/helpers.py`. -/
def calculate_damage (attacker defender : Unit) (gstate : Option GameState) : ℤ :=
  calc_damage_core attacker defender (terrain_mult_of gstate attacker defender)

theorem one_le_calculate_damage (attacker defender : Unit) (gstate : Option GameState) :
    1 ≤ calculate_damage attacker defender gstate :=
  le_max_left _ _

/-! ### Movement cost (`compute_min_cost_gs` in `utils/helpers.py`)

The source runs Dijkstra with a priority queue over the 8-neighbourhood;
the embedding computes the same minimal entering-cost function by rounds of
edge relaxation (`width * height` rounds bound every simple path), which in
exact arithmetic yields exactly the distances Dijkstra returns, with the same
`10^9` sentinel for unreachable targets. -/

/-- `DIRS` from `utils/constants.py` (4 orthogonal + 4 diagonal steps). -/
def DIRS : List (ℤ × ℤ) :=
  [(1, 0), (-1, 0), (0, 1), (0, -1), (1, 1), (-1, -1), (1, -1), (-1, 1)]

/-- The exact binary64 value of Python's `math.sqrt(2)`. -/
def sqrt2 : ℚ := mkRat 6369051672525773 4503599627370496

/-- Unreachable-path sentinel (`INF = 10**9`). -/
def INF : ℚ := 1000000000

/-- Whether the search may step onto `p`: inside the board, not a mountain,
and unoccupied unless `p` is the goal tile. -/
def enterable (gs : GameState) (tgt p : ℤ × ℤ) : Bool :=
  gs.in_bounds p.1 p.2 && !(gs.tile p.1 p.2 == TileType.mountain) &&
    ((gs.get_unit_at p.1 p.2).isNone || p == tgt)

/-- Cost of entering `p` by the step `(dx, dy)`: terrain cost of the entered
tile, times `sqrt(2)` for a diagonal step. -/
def step_cost (gs : GameState) (p : ℤ × ℤ) (dx dy : ℤ) : ℚ :=
  if dx != 0 && dy != 0 then qmul (gs.move_cost p.1 p.2) sqrt2 else gs.move_cost p.1 p.2

/-- All board cells, in `range(width) × range(height)` order. -/
def cellsOf (gs : GameState) : List (ℤ × ℤ) :=
  (List.range gs.width).flatMap (fun x => (List.range gs.height).map (fun y => ((x : ℤ), (y : ℤ))))

/-- Lookup in the tentative-distance table. -/
def distLookup (d : List ((ℤ × ℤ) × ℚ)) (p : ℤ × ℤ) : Option ℚ :=
  (d.find? (fun e => e.1 == p)).map (fun e => e.2)

/-- One relaxation of a cell: the best of its current tentative distance and
every predecessor's distance plus the entering step cost. -/
def relaxCell (gs : GameState) (tgt : ℤ × ℤ) (d : List ((ℤ × ℤ) × ℚ)) (p : ℤ × ℤ) : Option ℚ :=
  let old := distLookup d p
  if !enterable gs tgt p then old
  else
    DIRS.foldl (fun acc dir =>
      match distLookup d (p.1 - dir.1, p.2 - dir.2) with
      | none => acc
      | some c =>
        let nc := qadd c (step_cost gs p dir.1 dir.2)
        match acc with
        | none => some nc
        | some b => some (min b nc)) old

/-- One full relaxation round over every cell. -/
def relaxRound (gs : GameState) (tgt : ℤ × ℤ) (d : List ((ℤ × ℤ) × ℚ)) :
    List ((ℤ × ℤ) × ℚ) :=
  (cellsOf gs).filterMap (fun p => (relaxCell gs tgt d p).map (fun c => (p, c)))

/-- Iterated relaxation. -/
def relaxRounds (gs : GameState) (tgt : ℤ × ℤ) : ℕ → List ((ℤ × ℤ) × ℚ) → List ((ℤ × ℤ) × ℚ)
  | 0, d => d
  | n + 1, d => relaxRounds gs tgt n (relaxRound gs tgt d)

/-- `compute_min_cost_gs` from `utils/helpers.py`: minimal movement cost from
`start` to `goal` (sum of entering costs, diagonals scaled by `sqrt(2)`),
`0` when they coincide, `INF` when unreachable. -/
def compute_min_cost_gs (gs : GameState) (start goal : ℤ × ℤ) : ℚ :=
  if start == goal then 0
  else
    let d := relaxRounds gs goal (gs.width * gs.height) [(start, 0)]
    match distLookup d goal with
    | some c => c
    | none => INF

/-! ### Combat and movement (`GameLogic` in `backend/logic.py`) -/

/-- `manhattan` from `utils/helpers.py`. -/
def manhattan (x1 y1 x2 y2 : ℤ) : ℤ := |x1 - x2| + |y1 - y2|

/-- `GameLogic.can_attack`: different teams and within
`max(1, attacker.attack_range)` Manhattan distance. -/
def can_attack (attacker defender : Unit) : Bool :=
  if attacker.team == defender.team then false
  else decide (manhattan attacker.x attacker.y defender.x defender.y ≤ max 1 attacker.attack_range)

/-- `GameLogic.can_move`: bounds, vacancy, terrain, the no-move-after-attack
rule, and the path-cost budget, in source order. -/
def can_move (gs : GameState) (u : Unit) (to_x to_y : ℤ) : Bool :=
  gs.in_bounds to_x to_y &&
  (gs.get_unit_at to_x to_y).isNone &&
  !(gs.tile to_x to_y == TileType.mountain) &&
  !u.has_attacked &&
  decide (compute_min_cost_gs gs (u.x, u.y) (to_x, to_y) ≤ u.move_points)

/-- Python `round(q, 3)` (ties, which never arise from these costs, round
half-up here rather than half-even). -/
def pyRound3 (q : ℚ) : ℚ := mkRat (qfloor (qadd (qmul q 1000) (mkRat 1 2))) 1000

/-- The mutated unit list of a successful `GameLogic.move_unit`: the moved
unit's position and move points are updated and it is auto-marked acted when
its move points fall to `EPSILON` or below.  `none` when the move is refused.
The Python method receives the unit object itself; with unique ids, updating
the list entry with the unit's id is the same mutation. -/
def move_unit_mut (gs : GameState) (uid : ℕ) (to_x to_y : ℤ) : Option (List Unit) :=
  match gs.get_unit_by_id uid with
  | none => none
  | some u =>
    if !can_move gs u to_x to_y then none
    else
      let cost := compute_min_cost_gs gs (u.x, u.y) (to_x, to_y)
      if decide (u.move_points < cost) then none
      else
        let mp := max 0 (pyRound3 (qsub u.move_points cost))
        let u' : Unit :=
          { u with
            x := to_x
            y := to_y
            move_points := mp
            has_acted := if decide (mp ≤ EPSILON) then true else u.has_acted }
        some (gs.units.map (fun v => if v.id == uid then u' else v))

/-- `GameLogic.move_unit`: success flag plus resulting state (the board is
untouched on failure). -/
def move_unit (gs : GameState) (uid : ℕ) (to_x to_y : ℤ) : Bool × GameState :=
  match move_unit_mut gs uid to_x to_y with
  | none => (false, gs)
  | some l => (true, { gs with units := l })

/-- Damage dealt by the attack, `calculate_damage(attacker, defender, self.gs)`. -/
def attack_dmg (gs : GameState) (attacker defender : Unit) : ℤ :=
  calculate_damage attacker defender (some gs)

/-- The defender object after `apply_attack` has hit it: damage-display
fields set and health reduced. -/
def attack_defender_after (gs : GameState) (attacker defender : Unit) : Unit :=
  { defender with
    last_damage := attack_dmg gs attacker defender
    damage_timer := DAMAGE_DISPLAY_TIME
    health := defender.health - attack_dmg gs attacker defender }

/-- The retaliation damage the attacker receives: only for melee attacks
(`attack_range ≤ 1`) against a defender that is still alive after the hit,
and computed by `calculate_damage(defender, attacker)` with no game state. -/
def attack_retaliation (gs : GameState) (attacker defender : Unit) : ℤ :=
  if decide (1 < attacker.attack_range) then 0
  else if decide (0 < (attack_defender_after gs attacker defender).health) then
    calculate_damage (attack_defender_after gs attacker defender) attacker none
  else 0

/-- The attacker object after `apply_attack`: retaliation damage applied,
`has_attacked` set, move points zeroed. -/
def attack_attacker_after (gs : GameState) (attacker defender : Unit) : Unit :=
  { attacker with
    health := attacker.health - attack_retaliation gs attacker defender
    has_attacked := true
    move_points := 0 }

/-- The mutated unit list of a successful `GameLogic.apply_attack`, before
`remove_dead` is applied to the board list; `none` when the attack is
refused (`attacker.has_attacked or not can_attack`). -/
def apply_attack_mut (gs : GameState) (aid did : ℕ) : Option (List Unit) :=
  match gs.get_unit_by_id aid, gs.get_unit_by_id did with
  | some attacker, some defender =>
    if attacker.has_attacked || !can_attack attacker defender then none
    else
      some (gs.units.map (fun v =>
        if v.id == did then attack_defender_after gs attacker defender
        else if v.id == aid then attack_attacker_after gs attacker defender
        else v))
  | _, _ => none

/-- `GameLogic.apply_attack`: success flag plus resulting state; on success
`remove_dead` drops units at 0 or less health; on failure the board is
untouched. -/
def apply_attack (gs : GameState) (aid did : ℕ) : Bool × GameState :=
  match apply_attack_mut gs aid did with
  | none => (false, gs)
  | some l => (true, { gs with units := GameState.remove_dead l })

/-! ### Turn flow (`backend/logic.py`) -/

/-- `GameLogic.turn_begin_reset`: restore move points and clear both flags for
every unit of the team. -/
def turn_begin_reset (gs : GameState) (team : ℤ) : GameState :=
  { gs with
    units := gs.units.map (fun u =>
      if u.team == team then
        { u with move_points := u.move_range, has_attacked := false, has_acted := false }
      else u) }

/-- Modelled from the spec: `start_turn`, the newer name the planners and
agents call on `GameLogic`, is absent from the sources; the spec says turn
state is "reset at the start of each side's turn", which is exactly
`turn_begin_reset`. -/
def start_turn (gs : GameState) (team : ℤ) : GameState :=
  turn_begin_reset gs team

/-- The impure marking of `GameLogic.turn_check_end`: every unit of the team
with move points at or below `EPSILON` is marked acted. -/
def turn_check_end_mark (team : ℤ) (u : Unit) : Unit :=
  if u.team == team && decide (u.move_points ≤ EPSILON) then { u with has_acted := true } else u

/-- `GameLogic.turn_check_end`: marks exhausted units of the team as acted
(a side effect of the query, performed on every call) and then reports whether
every unit of the team has acted.  The planners and agents reach it through
the API's `check_turn_end` wrapper, its newer name. -/
def turn_check_end (gs : GameState) (team : ℤ) : Bool × GameState :=
  let units' := gs.units.map (turn_check_end_mark team)
  ((units'.filter (fun u => u.team == team)).all (fun u => u.has_acted),
   { gs with units := units' })

/-- `GameLogic.is_game_over`: some team has no units left. -/
def is_game_over (gs : GameState) : Bool :=
  !(gs.units.any (fun u => u.team == 1) && gs.units.any (fun u => u.team == 2))

/-! ### Actions (`GameLogic.get_legal_actions` and the `apply_action` dispatch) -/

/-- The action dictionaries `{"unit_id", "type", "target"}` as a tagged
variant: `move(unit_id, (x, y))`, `attack(unit_id, defender_id)`, and the
always-available `wait`. -/
inductive Action
  | move (unit_id : ℕ) (to_x to_y : ℤ)
  | attack (unit_id : ℕ) (target_id : ℕ)
  | wait (unit_id : ℕ)
deriving DecidableEq, Repr

/-- `GameLogic.get_movable_tiles`: every board tile the unit can move to,
scanned in `range(width) × range(height)` order. -/
def get_movable_tiles (gs : GameState) (u : Unit) : List (ℤ × ℤ) :=
  (List.range gs.width).flatMap (fun x =>
    (List.range gs.height).filterMap (fun y =>
      if can_move gs u (x : ℤ) (y : ℤ) then some ((x : ℤ), (y : ℤ)) else none))

/-- `GameLogic.get_attackable_tiles`: positions of every unit the attacker
can attack, in unit-list order. -/
def get_attackable_tiles (gs : GameState) (u : Unit) : List (ℤ × ℤ) :=
  gs.units.filterMap (fun t => if can_attack u t then some (t.x, t.y) else none)

/-- `GameLogic.get_legal_actions`: for every unit of the team that has not
acted and still has more than `EPSILON` move points, its moves, its attacks
(targets re-resolved through `get_unit_at`), and one `wait`. -/
def get_legal_actions (gs : GameState) (team : ℤ) : List Action :=
  (gs.units.filter (fun u =>
      u.team == team && !u.has_acted && decide (EPSILON < u.move_points))).flatMap
    (fun u =>
      (get_movable_tiles gs u).map (fun p => Action.move u.id p.1 p.2)
        ++ (get_attackable_tiles gs u).filterMap (fun p =>
              (gs.get_unit_at p.1 p.2).map (fun d => Action.attack u.id d.id))
        ++ [Action.wait u.id])

/-- Modelled from the spec: `GameLogic.apply_action`, the single-action
dispatcher the planners and agents call, is absent from the sources (only its
callers are).  Per the spec it validates and applies one action: `move` and
`attack` defer to the methods above; a `wait` "finish action" marks the unit
as acted (the spec's turn ends when every unit "has no move points left and
has acted, or explicitly waits"). -/
def apply_action (gs : GameState) (a : Action) : Bool × GameState :=
  match a with
  | Action.move uid tx ty => move_unit gs uid tx ty
  | Action.attack aid did => apply_attack gs aid did
  | Action.wait uid =>
    match gs.get_unit_by_id uid with
    | none => (false, gs)
    | some _ =>
      (true,
       { gs with
         units := gs.units.map (fun v => if v.id == uid then { v with has_acted := true } else v) })

/-- The mutated full unit list of `apply_action`, before an attack's
`remove_dead` filtering; used to model Python object mutation (a unit removed
from the board list still exists, with these field values). -/
def apply_action_mut (gs : GameState) (a : Action) : Option (List Unit) :=
  match a with
  | Action.move uid tx ty => move_unit_mut gs uid tx ty
  | Action.attack aid did => apply_attack_mut gs aid did
  | Action.wait uid =>
    match gs.get_unit_by_id uid with
    | none => none
    | some _ =>
      some (gs.units.map (fun v => if v.id == uid then { v with has_acted := true } else v))

/-! ### Simulation with explicit object store

The reversible planner (`ActionPlannerReversible` in
`src/ai/planning/action_planning.py`) mutates unit objects in place and keeps
Python references to them inside its restore tokens; a unit removed from the
board list by a death continues to exist and can be spliced back.  `PSim`
models this: `gs.units` is the board's unit list, and `store` holds every
unit object (alive or removed) at its current field values, keyed by the
unique `id`. -/

structure PSim where
  gs : GameState
  store : List Unit
deriving DecidableEq, Repr

/-- A fresh simulation over a board (`SimulationAPI(game_board.fast_clone())`):
every object in the store is on the board. -/
def psimOfBoard (b : GameState) : PSim := ⟨b, b.units⟩

/-- Write the mutated field values of the objects in `muts` back into the
store (objects not mentioned keep their current values). -/
def storeUpdate (store muts : List Unit) : List Unit :=
  store.map (fun u => ((muts.find? (fun v => v.id == u.id)).getD u))

/-- `apply_action` on a `PSim`: the board evolves as in `apply_action`, and
the store additionally remembers the post-mutation values of units an attack
removed from the board. -/
def psim_apply_action (s : PSim) (a : Action) : Bool × PSim :=
  match apply_action_mut s.gs a with
  | none => (false, s)
  | some l =>
    let post :=
      match a with
      | Action.attack _ _ => GameState.remove_dead l
      | _ => l
    (true, ⟨{ s.gs with units := post }, storeUpdate s.store l⟩)

/-- `start_turn` on a `PSim`. -/
def psim_start_turn (s : PSim) (team : ℤ) : PSim :=
  let gs' := start_turn s.gs team
  ⟨gs', storeUpdate s.store gs'.units⟩

/-- `check_turn_end` (= `turn_check_end`) on a `PSim`: the marking side
effect reaches the store too. -/
def psim_turn_check_end (s : PSim) (team : ℤ) : Bool × PSim :=
  let (b, gs') := turn_check_end s.gs team
  (b, ⟨gs', storeUpdate s.store gs'.units⟩)

/-! ### The reversible planner (`ActionPlannerReversible`) -/

/-- Configuration of `ActionPlannerReversible.__init__`. -/
structure ActionPlannerReversible where
  dfs_action_sets_limit : ℕ
  dfs_branching_limit : ℕ
  exploration_rate : ℚ
deriving DecidableEq, Repr

/-- A saved per-unit tuple of `_apply_action_reversible`: for a move,
`(x, y, move_points, has_acted)`; for an attack participant,
`(x, y, health, has_attacked, has_acted)` — note no move points. -/
inductive SavedState
  | ofMove (x y : ℤ) (move_points : ℚ) (has_acted : Bool)
  | ofAttack (x y : ℤ) (health : ℤ) (has_attacked has_acted : Bool)
deriving DecidableEq, Repr

/-- A restore token: the saved per-unit tuples (keyed by the referenced
object's id) plus the shallow copy `list(board.units)` of the board list
(a list of object references, i.e. ids). -/
structure Restore where
  unit_states : List (ℕ × SavedState)
  units_list : List ℕ
deriving DecidableEq, Repr

/-- `ActionPlannerReversible._apply_action_reversible`: build the restore
token (for a move, the mover's 4-tuple; for an attack, 5-tuples for both
participants; nothing for a wait), snapshot the board list, then apply the
action.  Returns `(False, None)` without applying when a unit lookup fails. -/
def apply_action_reversible (s : PSim) (a : Action) : Bool × PSim × Option Restore :=
  match a with
  | Action.move uid _ _ =>
    match s.gs.get_unit_by_id uid with
    | none => (false, s, none)
    | some u =>
      let r : Restore :=
        ⟨[(uid, SavedState.ofMove u.x u.y u.move_points u.has_acted)],
          s.gs.units.map (fun v => v.id)⟩
      let (ok, s') := psim_apply_action s a
      (ok, s', some r)
  | Action.attack aid did =>
    match s.gs.get_unit_by_id aid, s.gs.get_unit_by_id did with
    | some att, some dfn =>
      let r : Restore :=
        ⟨[(aid, SavedState.ofAttack att.x att.y att.health att.has_attacked att.has_acted),
          (did, SavedState.ofAttack dfn.x dfn.y dfn.health dfn.has_attacked dfn.has_acted)],
          s.gs.units.map (fun v => v.id)⟩
      let (ok, s') := psim_apply_action s a
      (ok, s', some r)
    | _, _ => (false, s, none)
  | Action.wait _ =>
    let r : Restore := ⟨[], s.gs.units.map (fun v => v.id)⟩
    let (ok, s') := psim_apply_action s a
    (ok, s', some r)

/-- Write one saved tuple back into a unit object. -/
def restoreUnit (u : Unit) (st : SavedState) : Unit :=
  match st with
  | SavedState.ofMove x y mp acted =>
    { u with x := x, y := y, move_points := mp, has_acted := acted }
  | SavedState.ofAttack x y h hatt acted =>
    { u with x := x, y := y, health := h, has_attacked := hatt, has_acted := acted }

/-- `ActionPlannerReversible._undo`: restore the saved attributes on the
referenced objects, then point the board list back at the saved reference
list (reviving units a death removed). -/
def undo (s : PSim) (r : Restore) : PSim :=
  let store' := r.unit_states.foldl
    (fun st p => st.map (fun u => if u.id == p.1 then restoreUnit u p.2 else u)) s.store
  ⟨{ s.gs with units := r.units_list.filterMap (fun uid => store'.find? (fun u => u.id == uid)) },
    store'⟩

/-! ### DFS enumeration and `plan` (`ActionPlannerReversible._dfs` / `.plan`)

`random.shuffle` is modelled by an explicit `shuffle` oracle, and the source's
unbounded recursion by a fuel parameter (the source terminates because every
action strictly consumes move points or flags; fuel-exhaustion simply returns
the sequences collected so far, which no theorem below relies on). -/

/-- The body of `_dfs`'s `for act in legal:` loop, parameterised by the
recursive call `rec`: apply reversibly, skip failures, recurse with the
action appended, undo, and stop early once the sequence limit is reached. -/
def dfs_loop (cfg : ActionPlannerReversible)
    (rec : PSim → List Action → List (List Action) → List (List Action) × PSim) :
    List Action → List Action → PSim → List (List Action) → List (List Action) × PSim
  | [], _, s, out => (out, s)
  | act :: rest, actions, s, out =>
    let r := apply_action_reversible s act
    if !r.1 then dfs_loop cfg rec rest actions r.2.1 out
    else
      let res := rec r.2.1 (actions ++ [act]) out
      let s3 := match r.2.2 with
        | some t => undo res.2 t
        | none => res.2
      if cfg.dfs_action_sets_limit ≤ res.1.length then (res.1, s3)
      else dfs_loop cfg rec rest actions s3 res.1

/-- `ActionPlannerReversible._dfs`: finalize a sequence when the sequence
limit is reached, the turn has ended (an impure check), or no legal action
remains; otherwise branch over the shuffled, truncated legal actions. -/
def dfs_reversible (cfg : ActionPlannerReversible) (shuffle : List Action → List Action)
    (team : ℤ) : ℕ → PSim → List Action → List (List Action) → List (List Action) × PSim :=
  @Nat.rec (fun _ => PSim → List Action → List (List Action) → List (List Action) × PSim)
    (fun s _ out => (out, s))
    (fun _ rec s actions out =>
      if cfg.dfs_action_sets_limit ≤ out.length then (out, s)
      else
        let te := psim_turn_check_end s team
        if te.1 then (out ++ [actions], te.2)
        else
          let legal := get_legal_actions te.2.gs team
          if legal.isEmpty then (out ++ [actions], te.2)
          else dfs_loop cfg rec ((shuffle legal).take cfg.dfs_branching_limit) actions te.2 out)

/-- `ActionPlannerReversible.plan_sequences`: fresh simulation over a clone,
start the turn, run the DFS, return the collected sequences. -/
def plan_sequences_reversible (cfg : ActionPlannerReversible)
    (shuffle : List Action → List Action) (fuel : ℕ) (board : GameState) (team : ℤ) :
    List (List Action) :=
  (dfs_reversible cfg shuffle team fuel (psim_start_turn (psimOfBoard board) team) [] []).1

/-- Replay one candidate sequence from a fresh clone of the live board
(`replay_api = SimulationAPI(game_board.fast_clone()); replay_api.start_turn(..)`),
returning the final board the evaluator scores. -/
def replay_final (board : GameState) (team : ℤ) (seq : List Action) : GameState :=
  seq.foldl (fun g a => (apply_action g a).2) (start_turn board team)

/-- The best-scoring-sequence fold of `plan`: first strict improvement wins,
starting from `best = None`, `best_score = -inf`. -/
def plan_best (board : GameState) (team : ℤ) (eval_fn : GameState → ℚ)
    (seqs : List (List Action)) : Option (List Action) :=
  (seqs.foldl (fun (best : Option (List Action) × WithBot ℚ) seq =>
      let score := eval_fn (replay_final board team seq)
      if best.2 < (score : WithBot ℚ) then (some seq, (score : WithBot ℚ)) else best)
    (none, ⊥)).1

/-- `ActionPlannerReversible.plan`.  The two random draws of the exploration
branch are explicit: `coin` is `random.random()`, and `pick` is the index
`random.choice` draws uniformly from the candidate list. -/
def plan_reversible (cfg : ActionPlannerReversible) (shuffle : List Action → List Action)
    (fuel : ℕ) (board : GameState) (team : ℤ) (eval_fn : GameState → ℚ)
    (coin : ℚ) (pick : ℕ) : List Action :=
  let seqs := plan_sequences_reversible cfg shuffle fuel board team
  if seqs.isEmpty then []
  else if decide (0 < cfg.exploration_rate) && decide (coin < cfg.exploration_rate) then
    seqs.getD pick []
  else (plan_best board team eval_fn seqs).getD []

/-! ### Beam search (`BeamSearchPlannerFullTurn`) -/

/-- Configuration of `BeamSearchPlannerFullTurn.__init__` — its only two
parameters; the class has no exploration rate. -/
structure BeamSearchPlannerFullTurn where
  beam_width : ℕ
  dfs_branching_limit : ℕ
deriving DecidableEq, Repr

/-- Insert at the end of the run of elements with key at least the new
element's key: folding this over a list is a stable descending sort, matching
Python's stable `sort(key=.., reverse=True)`. -/
def insertDescBy (key : α → ℚ) : List α → α → List α
  | [], x => [x]
  | y :: ys, x => if decide (key x ≤ key y) then y :: insertDescBy key ys x else x :: y :: ys

/-- Stable descending sort by a rational key. -/
def sortDescBy (key : α → ℚ) (l : List α) : List α :=
  l.foldl (insertDescBy key) []

/-- Expansion of one frontier node: the impure turn-end check runs first; a
finished node contributes `(seq, score)`, otherwise each surviving child
contributes a candidate `(state, seq ++ [act], score)`. -/
def beam_expand (cfg : BeamSearchPlannerFullTurn) (shuffle : List Action → List Action)
    (team : ℤ) (ev : GameState → ℚ)
    (acc : List (List Action × ℚ) × List (GameState × List Action × ℚ))
    (node : GameState × List Action × ℚ) :
    List (List Action × ℚ) × List (GameState × List Action × ℚ) :=
  let te := turn_check_end node.1 team
  if te.1 then (acc.1 ++ [(node.2.1, ev te.2)], acc.2)
  else
    let legal := get_legal_actions te.2 team
    if legal.isEmpty then (acc.1 ++ [(node.2.1, ev te.2)], acc.2)
    else
      (acc.1,
       acc.2 ++ ((shuffle legal).take cfg.dfs_branching_limit).filterMap (fun act =>
         let r := apply_action te.2 act
         if r.1 then some (r.2, node.2.1 ++ [act], ev r.2) else none))

/-- The `while frontier:` loop of `plan_sequences`, fuelled: expand every
frontier node, stop when no candidates remain, else keep the `beam_width`
best-scoring candidates.  Returns (finished, last frontier). -/
def beam_loop (cfg : BeamSearchPlannerFullTurn) (shuffle : List Action → List Action)
    (team : ℤ) (ev : GameState → ℚ) :
    ℕ → List (GameState × List Action × ℚ) → List (List Action × ℚ) →
      List (List Action × ℚ) × List (GameState × List Action × ℚ)
  | 0, frontier, finished => (finished, frontier)
  | fuel + 1, frontier, finished =>
    if frontier.isEmpty then (finished, frontier)
    else
      let step := frontier.foldl (beam_expand cfg shuffle team ev) (finished, [])
      if step.2.isEmpty then (step.1, [])
      else
        beam_loop cfg shuffle team ev fuel
          ((sortDescBy (fun c => c.2.2) step.2).take cfg.beam_width) step.1

/-- `BeamSearchPlannerFullTurn.plan_sequences`: start the turn on a fresh
clone, score the root, run the beam loop, fall back to the frontier when
nothing finished, and return the sequences sorted best-first.  Note the
deliberate absence of any exploration draw: the result is a function of the
board, the shuffles and the evaluator alone. -/
def beam_plan_sequences (cfg : BeamSearchPlannerFullTurn)
    (shuffle : List Action → List Action) (fuel : ℕ) (board : GameState) (team : ℤ)
    (ev : GameState → ℚ) : List (List Action) :=
  let root := start_turn board team
  let initial_score := ev root
  let res := beam_loop cfg shuffle team ev fuel [(root, [], initial_score)] []
  let finished := if res.1.isEmpty then res.2.map (fun n => (n.2.1, n.2.2)) else res.1
  (sortDescBy (fun f => f.2) finished).map (fun f => f.1)

/-! ### The minimax agent (`src/ai/agents/minimax_agent.py`)

The evaluator (`_eval_snapshot`, a NEAT network over the encoded snapshot) is
an oracle `GameState → ℤ → ℚ`: the snapshot is a faithful projection of the
board, and the second argument is the perspective team id.  The expensive
cached DFS (`_get_sequences_cached`) is an oracle `ℤ → List (List Action)`:
the cache is keyed by team id alone and filled once per top-level decision,
so within one decision it is exactly a function of the team id. -/

/-- Minimax values: rationals extended with the `float('-inf')`/`float('inf')`
sentinels used for `best`, `alpha` and `beta`. -/
abbrev MMVal := WithBot (WithTop ℚ)

/-- Embed a finite evaluator output. -/
def toVal (q : ℚ) : MMVal := ((q : WithTop ℚ) : WithBot (WithTop ℚ))

/-- `float('inf')` as an `MMVal` (`⊥` itself is `float('-inf')`). -/
def posInf : MMVal := ((⊤ : WithTop ℚ) : WithBot (WithTop ℚ))

/-- `opponent = 1 if team == 2 else 2`. -/
def opponent_of (team : ℤ) : ℤ := if team == 2 then 1 else 2

/-- The replay of `_get_children` for one cached sequence: clone the node's
simulation, start the acting team's turn, apply the sequence, and advance to
the opponent's turn unless the game ended. -/
def child_replay (gs : GameState) (acting : ℤ) (seq : List Action) : GameState :=
  let g2 := replay_final gs acting seq
  if is_game_over g2 then g2 else start_turn g2 (opponent_of acting)

/-- `MinimaxAgent._get_children`: replay every cached sequence of the acting
team, score the result with the evaluator from `eval_team`'s perspective,
sort best-first (stable), and keep the top `child_limit` (Python truthiness:
a zero limit disables the truncation). -/
def get_children (e : GameState → ℤ → ℚ) (seqs : ℤ → List (List Action)) (eval_team : ℤ)
    (child_limit : ℕ) (gs : GameState) (acting : ℤ) : List (List Action × GameState) :=
  let sequences := seqs acting
  if sequences.isEmpty then []
  else
    let scored := sequences.map (fun s =>
      let replay := child_replay gs acting s
      (s, e replay eval_team, replay))
    let sorted := sortDescBy (fun c => c.2.1) scored
    let kept := if child_limit == 0 then sorted else sorted.take child_limit
    kept.map (fun c => (c.1, c.2.2))

/-- The MAX-node loop of `_minimax`: fold the children, raising `best` and
`alpha`, with the standard `alpha >= beta` cutoff. -/
def mm_max_fold (f : GameState → MMVal → MMVal → MMVal) :
    List (List Action × GameState) → MMVal → MMVal → MMVal → MMVal
  | [], best, _, _ => best
  | c :: rest, best, alpha, beta =>
    let value := f c.2 alpha beta
    let best' := if best < value then value else best
    let alpha' := if alpha < best' then best' else alpha
    if beta ≤ alpha' then best' else mm_max_fold f rest best' alpha' beta

/-- The MIN-node loop of `_minimax`, mirror image with `beta`. -/
def mm_min_fold (f : GameState → MMVal → MMVal → MMVal) :
    List (List Action × GameState) → MMVal → MMVal → MMVal → MMVal
  | [], best, _, _ => best
  | c :: rest, best, alpha, beta =>
    let value := f c.2 alpha beta
    let best' := if value < best then value else best
    let beta' := if best' < beta then best' else beta
    if beta' ≤ alpha then best' else mm_min_fold f rest best' alpha beta'

/-- `MinimaxAgent._minimax`: alpha-beta over full-turn children.  `team_id`
is the MAX player; terminal nodes (depth 0, game over, or no children) are
scored by the evaluator — always from `team_id`'s perspective. -/
def minimax (e : GameState → ℤ → ℚ) (cg : GameState → ℤ → List (List Action × GameState))
    (team_id : ℤ) : ℕ → GameState → MMVal → MMVal → Bool → MMVal
  | 0, sim, _, _, _ => toVal (e sim team_id)
  | depth + 1, sim, alpha, beta, is_max =>
    if is_game_over sim then toVal (e sim team_id)
    else
      let acting := if is_max then team_id else opponent_of team_id
      let children := cg sim acting
      if children.isEmpty then toVal (e sim team_id)
      else if is_max then
        mm_max_fold (fun cs a b => minimax e cg team_id depth cs a b false) children ⊥ alpha beta
      else
        mm_min_fold (fun cs a b => minimax e cg team_id depth cs a b true) children posInf alpha beta

/-- `MinimaxAgent.execute_next_actions`: expand the root children (acting =
the agent's team), run `_minimax` on each with the opponent to act, and keep
the strictly best sequence.  Returns the sequence the agent then plays
against the live game; Python's `if not best_seq:` treats an empty chosen
sequence like no sequence, so both yield `none`. -/
def execute_next_actions (e : GameState → ℤ → ℚ) (seqs : ℤ → List (List Action))
    (depth child_limit : ℕ) (team_id : ℤ) (board : GameState) : Option (List Action) :=
  let cg := get_children e seqs team_id child_limit
  let root := cg board team_id
  if root.isEmpty then none
  else
    let best := root.foldl (fun (acc : Option (List Action) × MMVal) c =>
        let score := minimax e cg team_id depth c.2 ⊥ posInf false
        if acc.2 < score then (some c.1, score) else acc)
      (none, ⊥)
    match best.1 with
    | none => none
    | some s => if s.isEmpty then none else some s

/-! ### The MCTS agent (`src/ai/agents/mcts_agent.py`)

Only the root-arm statistics the visit-conservation claim speaks about are
embedded in full: the UCB1 selection (`_select_child_ucb`) and the iteration
loop.  `math.log` and `math.sqrt` enter UCB scores only through the oracle
parameters `logf` and `sqrtf`, and the rollout value of an iteration
(`_rollout` after applying the chosen arm: board clone, random turns,
evaluator call) is the oracle `value_of`, a function of the iteration number
and the selected arm — neither oracle can affect how many visits a round
records. -/

/-- `_MCTSChildStats`. -/
structure MCTSChildStats where
  sequence : List Action
  visits : ℕ
  value_sum : ℚ
deriving DecidableEq, Repr

/-- `q_value`: mean value, `0.0` while unvisited. -/
def MCTSChildStats.q_value (c : MCTSChildStats) : ℚ :=
  if 0 < c.visits then qdiv c.value_sum (c.visits : ℚ) else 0

/-- `MCTSAgent._select_child_ucb`: UCB1 with infinite priority for unvisited
arms; first strict improvement wins, starting from index 0 and `-inf`. -/
def select_child_ucb (logf sqrtf : ℚ → ℚ) (c_puct : ℚ) (children : List MCTSChildStats)
    (total_visits : ℕ) : ℕ :=
  let log_n := logf (qadd (total_visits : ℚ) 1)
  (children.enum.foldl (fun (best : ℕ × MMVal) p =>
      let ucb : MMVal :=
        if p.2.visits == 0 then posInf
        else toVal (qadd p.2.q_value (qmul c_puct (sqrtf (qdiv log_n (p.2.visits : ℚ)))))
      if best.2 < ucb then (p.1, ucb) else best)
    (0, ⊥)).1

/-- In-place update of the list entry at an index (Python mutates
`root_children[idx]` through the reference). -/
def modifyIdx (f : α → α) : List α → ℕ → List α
  | [], _ => []
  | x :: xs, 0 => f x :: xs
  | x :: xs, n + 1 => x :: modifyIdx f xs n

/-- One MCTS iteration `it`: select an arm by UCB1 (`total_visits = it`,
since every earlier round incremented it exactly once), then back-propagate
the rollout value into that arm's visit count and value sum. -/
def mcts_iteration (logf sqrtf : ℚ → ℚ) (c_puct : ℚ) (value_of : ℕ → ℕ → ℚ)
    (children : List MCTSChildStats) (it : ℕ) : List MCTSChildStats :=
  let idx := select_child_ucb logf sqrtf c_puct children it
  modifyIdx (fun c =>
      { c with visits := c.visits + 1, value_sum := qadd c.value_sum (value_of it idx) })
    children idx

/-- The `for it in range(self.iterations)` loop of `execute_next_actions`. -/
def mcts_iterate (logf sqrtf : ℚ → ℚ) (c_puct : ℚ) (value_of : ℕ → ℕ → ℚ)
    (iterations : ℕ) (children : List MCTSChildStats) : List MCTSChildStats :=
  (List.range iterations).foldl (mcts_iteration logf sqrtf c_puct value_of) children

/-- `_generate_root_moves`' final step: every kept arm starts with
`visits=0, value_sum=0.0`. -/
def mk_root_children (seqs : List (List Action)) : List MCTSChildStats :=
  seqs.map (fun s => ⟨s, 0, 0⟩)

/-- Total visit count across root arms. -/
def total_visits_of (children : List MCTSChildStats) : ℕ :=
  (children.map (fun c => c.visits)).sum

/-! ### Self-play fitness aggregation (`ai/neat/neat_trainer.py`)

A finished match contributes `compute_fitness`'s two softplus-bounded scores
to the two genomes that played it; the parallel match execution and the score
formula itself enter only through the list of per-match results.  Python
dicts keyed by genome id are modelled as association lists over the (unique)
genome ids; adding to a missing key raises `KeyError`, modelled as `none`. -/

/-- A completed match as the result-collection loop sees it: the two genome
ids and their `compute_fitness` contributions. -/
structure MatchResult where
  gid_a : ℕ
  gid_b : ℕ
  fit_a : ℚ
  fit_b : ℚ
deriving DecidableEq, Repr

/-- `d[k] += v` on a dict modelled as an association list: `none` when the
key is absent (Python raises `KeyError`). -/
def dict_add (d : List (ℕ × ℚ)) (k : ℕ) (v : ℚ) : Option (List (ℕ × ℚ)) :=
  if d.any (fun p => p.1 == k) then
    some (d.map (fun p => if p.1 == k then (p.1, qadd p.2 v) else p))
  else none

/-- `d.get(k, default)`. -/
def dict_get (d : List (ℕ × ℚ)) (k : ℕ) (dflt : ℚ) : ℚ :=
  ((d.find? (fun p => p.1 == k)).map (fun p => p.2)).getD dflt

/-- Accumulate one match into `fitness_sums` and `match_counts` (counts are
kept as rationals for a single dict model; they only ever hold naturals). -/
def accum_match (acc : List (ℕ × ℚ) × List (ℕ × ℚ)) (r : MatchResult) :
    Option (List (ℕ × ℚ) × List (ℕ × ℚ)) :=
  match dict_add acc.1 r.gid_a r.fit_a with
  | none => none
  | some s1 =>
    match dict_add s1 r.gid_b r.fit_b with
    | none => none
    | some s2 =>
      match dict_add acc.2 r.gid_a 1 with
      | none => none
      | some c1 =>
        match dict_add c1 r.gid_b 1 with
        | none => none
        | some c2 => some (s2, c2)

/-- `NeatTrainer.eval_genomes`' fitness bookkeeping: initialise both dicts to
zero for every genome, accumulate every completed match, then assign each
genome `fitness_sums[gid] / max(1, match_counts[gid])`. -/
def eval_genomes_fitness (genome_ids : List ℕ) (results : List MatchResult) :
    Option (List (ℕ × ℚ)) :=
  let sums0 := genome_ids.map (fun g => (g, (0 : ℚ)))
  let counts0 := genome_ids.map (fun g => (g, (0 : ℚ)))
  match results.foldlM accum_match (sums0, counts0) with
  | none => none
  | some acc =>
    some (genome_ids.map (fun g =>
      (g, qdiv (dict_get acc.1 g 0) (max 1 (dict_get acc.2 g 0)))))

/-- Stated from the spec's words, for comparison: the number of matches a
genome actually played. -/
def matches_played : ℕ → List MatchResult → ℕ
  | _, [] => 0
  | g, r :: rs =>
    (if g == r.gid_a then 1 else 0) + (if g == r.gid_b then 1 else 0) + matches_played g rs

/-- Stated from the spec's words, for comparison: the sum of the genome's
per-match fitness contributions. -/
def fitness_contrib_sum : ℕ → List MatchResult → ℚ
  | _, [] => 0
  | g, r :: rs =>
    qadd (qadd (if g == r.gid_a then r.fit_a else 0) (if g == r.gid_b then r.fit_b else 0))
      (fitness_contrib_sum g rs)

/-! ### Concrete boards used by witnesses and counterexamples -/

/-- Build a fresh unit with full health and move points and clear flags, as
the drafting code does at match setup. -/
def mkUnit (uid : ℕ) (nm : UnitName) (x y team : ℤ) (hp arm pow rng : ℤ) (mr : ℚ) : Unit :=
  ⟨uid, nm, x, y, team, hp, hp, arm, pow, rng, mr, mr, false, false, 0, 0⟩

/-- A Swordsman with the `UNIT_STATS` stat line. -/
def mkSwordsman (uid : ℕ) (x y team : ℤ) : Unit :=
  mkUnit uid UnitName.swordsman x y team 110 40 50 1 2

/-- An Archer with the `UNIT_STATS` stat line. -/
def mkArcher (uid : ℕ) (x y team : ℤ) : Unit :=
  mkUnit uid UnitName.archer x y team 70 15 45 3 3

/-! ### C6 — the impure turn-end check -/

/-- C6: `turn_check_end` marks every unit of the team whose move points are at
or below `EPSILON` as acted — unconditionally, on every call, also when the
reported answer is `false` (first conjunct) — and returns `true` exactly when,
after that marking, every unit of the team has `has_acted = true` (second
conjunct). -/
theorem C6_turn_check_end_spec (gs : GameState) (team : ℤ) :
    (turn_check_end gs team).2.units = gs.units.map (turn_check_end_mark team) ∧
    ((turn_check_end gs team).1 = true ↔
      ∀ u ∈ (turn_check_end gs team).2.units, u.team = team → u.has_acted = true) := by
  refine ⟨rfl, ?_⟩
  simp only [turn_check_end, List.all_eq_true, List.mem_filter, and_imp]
  constructor
  · intro h u hu hteam
    exact h u hu (by simp [hteam])
  · intro h u hu hteam
    exact h u hu (by simpa using hteam)

/-! ### C4 — failed actions leave the state unchanged -/

/-- C4: an action whose preconditions fail returns failure and leaves the
simulation untouched: `move_unit` yields `(false, gs)` whenever `can_move`
refuses, and `apply_attack` yields `(false, gs)` whenever the attacker has
already attacked or `can_attack` refuses. -/
theorem C4_failed_actions_leave_state_unchanged (gs : GameState) :
    (∀ uid to_x to_y u, gs.get_unit_by_id uid = some u →
        can_move gs u to_x to_y = false → move_unit gs uid to_x to_y = (false, gs)) ∧
    (∀ aid did a d, gs.get_unit_by_id aid = some a → gs.get_unit_by_id did = some d →
        a.has_attacked = true ∨ can_attack a d = false →
        apply_attack gs aid did = (false, gs)) := by
  constructor
  · intro uid to_x to_y u hu hcm
    simp [move_unit, move_unit_mut, hu, hcm]
  · intro aid did a d ha hd hfail
    have : (a.has_attacked || !can_attack a d) = true := by
      rcases hfail with h | h <;> simp [h]
    simp [apply_attack, apply_attack_mut, ha, hd, this]

/-- Witness board for C4: two swordsmen on a 1×2 strip; moving onto the
occupied tile is refused, as is a same-team attack. -/
def C4_board : GameState :=
  ⟨1, 2, [[TileType.plain], [TileType.plain]],
    [mkSwordsman 1 0 0 1, mkSwordsman 2 0 1 1]⟩

theorem C4_witness :
    move_unit C4_board 1 0 1 = (false, C4_board) ∧
    apply_attack C4_board 1 2 = (false, C4_board) := by
  constructor
  · exact (C4_failed_actions_leave_state_unchanged C4_board).1 1 0 1
      (mkSwordsman 1 0 0 1) (by decide) (by decide)
  · exact (C4_failed_actions_leave_state_unchanged C4_board).2 1 2
      (mkSwordsman 1 0 0 1) (mkSwordsman 2 0 1 1) (by decide) (by decide)
      (Or.inr (by decide))

/-! ### C5 — retaliation exactly for melee attacks the defender survives -/

/-- C5: for every attack `apply_attack` actually executes, the attack goes
through and the board evolves by rewriting the two participants to
`attack_defender_after`/`attack_attacker_after` and removing the dead (first
and second conjuncts); the attacker loses health exactly when the attack is
melee (`attack_range ≤ 1`) and the defender's health is still positive after
the hit (third conjunct), and a ranged attacker's (`attack_range > 1`, e.g.
an Archer at range 3) health is unchanged (fourth conjunct). -/
theorem C5_retaliation_iff_melee_and_survivor (gs : GameState) (aid did : ℕ) (a d : Unit)
    (ha : gs.get_unit_by_id aid = some a) (hd : gs.get_unit_by_id did = some d)
    (hna : a.has_attacked = false) (hca : can_attack a d = true) :
    (apply_attack gs aid did).1 = true ∧
    (apply_attack gs aid did).2.units
      = GameState.remove_dead (gs.units.map (fun v =>
          if v.id == did then attack_defender_after gs a d
          else if v.id == aid then attack_attacker_after gs a d
          else v)) ∧
    ((attack_attacker_after gs a d).health < a.health ↔
      a.attack_range ≤ 1 ∧ 0 < d.health - calculate_damage a d (some gs)) ∧
    (1 < a.attack_range → (attack_attacker_after gs a d).health = a.health) := by
  refine ⟨?_, ?_, ?_, ?_⟩
  · simp [apply_attack, apply_attack_mut, ha, hd, hna, hca]
  · simp [apply_attack, apply_attack_mut, ha, hd, hna, hca]
  · rw [attack_attacker_after]
    simp only [sub_lt_self_iff]
    constructor
    · intro h
      rw [attack_retaliation] at h
      by_cases hr : 1 < a.attack_range
      · rw [if_pos (decide_eq_true hr)] at h
        exact absurd h (lt_irrefl 0)
      · by_cases hs : 0 < (attack_defender_after gs a d).health
        · exact ⟨by omega, by simpa [attack_defender_after, attack_dmg] using hs⟩
        · rw [if_neg (by simpa using hr), if_neg (by simpa using hs)] at h
          exact absurd h (lt_irrefl 0)
    · rintro ⟨h1, h2⟩
      rw [attack_retaliation]
      have hr : ¬ (1 < a.attack_range) := by omega
      have hs : 0 < (attack_defender_after gs a d).health := by
        simpa [attack_defender_after, attack_dmg] using h2
      rw [if_neg (by simpa using hr), if_pos (decide_eq_true hs)]
      exact lt_of_lt_of_le Int.zero_lt_one (one_le_calculate_damage _ _ _)
  · intro hr
    simp [attack_attacker_after, attack_retaliation, hr]

/-- Witness board for C5, the spec's scenario: a 5×5 all-plain board, a team-1
Archer at (0,0) and a team-2 Swordsman at (0,3), Manhattan distance 3 equal to
the Archer's range. -/
def C5_board : GameState :=
  ⟨5, 5, List.replicate 5 (List.replicate 5 TileType.plain),
    [mkArcher 1 0 0 1, mkSwordsman 2 0 3 2]⟩

theorem C5_witness :
    (apply_attack C5_board 1 2).1 = true ∧
    (attack_attacker_after C5_board (mkArcher 1 0 0 1) (mkSwordsman 2 0 3 2)).health
      = (mkArcher 1 0 0 1).health := by
  refine ⟨?_, ?_⟩
  · exact (C5_retaliation_iff_melee_and_survivor C5_board 1 2 (mkArcher 1 0 0 1)
      (mkSwordsman 2 0 3 2) (by decide) (by decide) (by decide) (by decide)).1
  · exact (C5_retaliation_iff_melee_and_survivor C5_board 1 2 (mkArcher 1 0 0 1)
      (mkSwordsman 2 0 3 2) (by decide) (by decide) (by decide) (by decide)).2.2.2 (by decide)

/-! ### C10 — retaliation damage never sees terrain -/

/-- C10: whenever a melee attack leaves the defender alive, the retaliation
the attacker suffers is `calculate_damage(defender, attacker)` with no game
state (first conjunct), which is the damage formula with the terrain
multiplier pinned to `1` (second conjunct) — so terrain bonuses under either
unit never change retaliation damage, for every board `gs`; the attacker's
health drops by exactly that terrain-free amount (third conjunct). -/
theorem C10_retaliation_ignores_terrain (gs : GameState) (a d : Unit)
    (hmelee : a.attack_range ≤ 1)
    (hsurv : 0 < (attack_defender_after gs a d).health) :
    attack_retaliation gs a d = calculate_damage (attack_defender_after gs a d) a none ∧
    calculate_damage (attack_defender_after gs a d) a none
      = calc_damage_core (attack_defender_after gs a d) a 1 ∧
    (attack_attacker_after gs a d).health
      = a.health - calc_damage_core (attack_defender_after gs a d) a 1 := by
  have hr : ¬ (1 < a.attack_range) := by omega
  have h1 : attack_retaliation gs a d = calculate_damage (attack_defender_after gs a d) a none := by
    simp [attack_retaliation, hr, hsurv]
  have h2 : calculate_damage (attack_defender_after gs a d) a none
      = calc_damage_core (attack_defender_after gs a d) a 1 := rfl
  exact ⟨h1, h2, by rw [attack_attacker_after, h1, h2]⟩

/-- Witness board for C10: the attacking Swordsman stands on a hill (which
does change the forward damage), the defender on a plain. -/
def C10_board : GameState :=
  ⟨1, 2, [[TileType.hill], [TileType.plain]],
    [mkSwordsman 1 0 0 1, mkSwordsman 2 0 1 2]⟩

theorem C10_witness :
    attack_retaliation C10_board (mkSwordsman 1 0 0 1) (mkSwordsman 2 0 1 2)
      = calc_damage_core
          (attack_defender_after C10_board (mkSwordsman 1 0 0 1) (mkSwordsman 2 0 1 2))
          (mkSwordsman 1 0 0 1) 1 :=
  ((C10_retaliation_ignores_terrain C10_board (mkSwordsman 1 0 0 1) (mkSwordsman 2 0 1 2)
      (by decide) (by decide)).1).trans
    (C10_retaliation_ignores_terrain C10_board (mkSwordsman 1 0 0 1) (mkSwordsman 2 0 1 2)
      (by decide) (by decide)).2.1

/-! ### C1 — undo does not restore everything -/

/-- The failing input for C1: two full-strength swordsmen facing each other on
a 1×2 strip; team 1's unit 1 attacks unit 2. -/
def C1_board : GameState :=
  ⟨1, 2, [[TileType.plain], [TileType.plain]],
    [mkSwordsman 1 0 0 1, mkSwordsman 2 0 1 2]⟩

/-- C1 (refuted — the code, not the claim, is at fault): on `C1_board` the
reversible application of the attack succeeds (first conjunct) and `_undo`
restores position, health and both flags of every unit and the unit list
itself (second conjunct), but the attacker's move points — which
`apply_attack` zeroes and the attack restore tuple
`(x, y, health, has_attacked, has_acted)` does not save — come back as `0`
instead of the original `2` (third and fourth conjuncts). -/
theorem C1_undo_drops_attacker_move_points :
    (apply_action_reversible (psimOfBoard C1_board) (Action.attack 1 2)).1 = true ∧
    ((undo (apply_action_reversible (psimOfBoard C1_board) (Action.attack 1 2)).2.1
        ((apply_action_reversible (psimOfBoard C1_board) (Action.attack 1 2)).2.2.getD
          ⟨[], []⟩)).gs.units.map
      (fun u => (u.id, u.x, u.y, u.health, u.has_attacked, u.has_acted)))
      = C1_board.units.map (fun u => (u.id, u.x, u.y, u.health, u.has_attacked, u.has_acted)) ∧
    ((undo (apply_action_reversible (psimOfBoard C1_board) (Action.attack 1 2)).2.1
        ((apply_action_reversible (psimOfBoard C1_board) (Action.attack 1 2)).2.2.getD
          ⟨[], []⟩)).gs.units.map (fun u => (u.id, u.move_points))) = [(1, 0), (2, 2)] ∧
    C1_board.units.map (fun u => (u.id, u.move_points)) = [(1, 2), (2, 2)] := by
  decide

/-! ### C2 — exploration: the reversible planner has it, the beam planner does not -/

theorem getD_mem_of_lt (l : List α) (n : ℕ) (d : α) (h : n < l.length) : l.getD n d ∈ l := by
  rw [List.getD_eq_getElem l d h]
  exact l.getElem_mem h

/-- C2 (amended part): the reversible DFS planner's `plan` honours its
exploration rate: whenever the rate is positive, the `random.random()` draw
falls below it, and the uniformly drawn index is in range, `plan` returns the
candidate at that index — an element of the candidate set — instead of the
best-scoring sequence, for every board, shuffle oracle, and evaluator. -/
theorem C2_reversible_planner_explores (cfg : ActionPlannerReversible)
    (shuffle : List Action → List Action) (fuel : ℕ) (board : GameState) (team : ℤ)
    (eval_fn : GameState → ℚ) (coin : ℚ) (pick : ℕ)
    (hrate : 0 < cfg.exploration_rate)
    (hcoin : coin < cfg.exploration_rate)
    (hpick : pick < (plan_sequences_reversible cfg shuffle fuel board team).length) :
    plan_reversible cfg shuffle fuel board team eval_fn coin pick
        = (plan_sequences_reversible cfg shuffle fuel board team).getD pick [] ∧
    (plan_sequences_reversible cfg shuffle fuel board team).getD pick []
        ∈ plan_sequences_reversible cfg shuffle fuel board team := by
  have hne : (plan_sequences_reversible cfg shuffle fuel board team).isEmpty = false := by
    rw [List.isEmpty_eq_false_iff_exists_mem]
    exact ⟨_, getD_mem_of_lt (plan_sequences_reversible cfg shuffle fuel board team) pick [] hpick⟩
  constructor
  · rw [plan_reversible]
    simp only [hne, Bool.false_eq_true, if_false]
    rw [if_pos]
    simp [hrate, hcoin]
  · exact getD_mem_of_lt (plan_sequences_reversible cfg shuffle fuel board team) pick [] hpick

/-- Witness board for C2's positive half: no team-1 unit exists, so the DFS
produces the single empty full-turn sequence, and with exploration rate 1 the
planner returns the uniformly drawn candidate. -/
def C2_board_a : GameState :=
  ⟨1, 2, [[TileType.plain], [TileType.plain]], [mkSwordsman 2 0 1 2]⟩

theorem C2_witness :
    plan_reversible ⟨5, 3, 1⟩ id 5 C2_board_a 1 (fun _ => 0) 0 0
        = (plan_sequences_reversible ⟨5, 3, 1⟩ id 5 C2_board_a 1).getD 0 [] ∧
    (plan_sequences_reversible ⟨5, 3, 1⟩ id 5 C2_board_a 1).getD 0 []
        ∈ plan_sequences_reversible ⟨5, 3, 1⟩ id 5 C2_board_a 1 :=
  C2_reversible_planner_explores ⟨5, 3, 1⟩ id 5 C2_board_a 1 (fun _ => 0) 0 0
    (by decide) (by decide) (by decide)

/-- The board refuting C2's beam-search half: a 1×3 all-plain strip with one
team-1 Swordsman at (0,0) and nobody else. -/
def C2_board_b : GameState :=
  ⟨1, 3, [[TileType.plain], [TileType.plain], [TileType.plain]], [mkSwordsman 1 0 0 1]⟩

/-- The evaluator for the beam counterexample: the first unit's row. -/
def C2_ev : GameState → ℚ :=
  fun gs => match gs.units with
  | u :: _ => (u.y : ℚ)
  | [] => 0

/-- C2 (counterexample): `BeamSearchPlannerFullTurn` takes no exploration
rate — its configuration is `beam_width` and `dfs_branching_limit` alone, and
`plan_sequences` draws no exploration coin — so on `C2_board_b` its output is
the fixed best-scoring-first list below.  The candidate set has three
sequences with scores 2, 2 and 0, yet the best-scoring sequence is always
returned first: no draw can ever make the planner return a uniformly random
candidate, contradicting the claim that both planners accept an exploration
rate and explore with that probability. -/
theorem C2_beam_never_explores :
    beam_plan_sequences ⟨2, 2⟩ id 10 C2_board_b 1 C2_ev =
      [[Action.move 1 0 2], [Action.move 1 0 1, Action.move 1 0 2],
        [Action.move 1 0 1, Action.move 1 0 0]] ∧
    C2_ev (replay_final C2_board_b 1 [Action.move 1 0 2]) = 2 ∧
    C2_ev (replay_final C2_board_b 1 [Action.move 1 0 1, Action.move 1 0 0]) = 0 := by
  decide

/-! ### C8 — MCTS visit conservation -/

theorem select_child_ucb_lt_length (logf sqrtf : ℚ → ℚ) (c_puct : ℚ)
    (children : List MCTSChildStats) (total : ℕ) (h : children ≠ []) :
    select_child_ucb logf sqrtf c_puct children total < children.length := by
  rw [select_child_ucb]
  have hlen : 0 < children.length := List.length_pos.mpr h
  refine @List.foldlRecOn (ℕ × MMVal) (ℕ × MCTSChildStats)
    (fun acc => acc.1 < children.length) children.enum _ (0, (⊥ : MMVal)) hlen ?_
  intro acc hacc p hp
  have hp1 : p.1 < children.length := by
    rw [List.mem_enum_iff_getElem?] at hp
    exact (List.getElem?_eq_some.mp hp).1
  split <;> (dsimp only; split <;> first | exact hp1 | exact hacc)

theorem length_modifyIdx (f : α → α) (l : List α) (i : ℕ) :
    (modifyIdx f l i).length = l.length := by
  induction l generalizing i with
  | nil => rfl
  | cons x xs ih =>
    cases i with
    | zero => rfl
    | succ n => simpa [modifyIdx] using ih n

theorem total_visits_modifyIdx (g : ℚ → ℚ) (children : List MCTSChildStats) (i : ℕ)
    (h : i < children.length) :
    total_visits_of (modifyIdx
        (fun c => { c with visits := c.visits + 1, value_sum := g c.value_sum }) children i)
      = total_visits_of children + 1 := by
  induction children generalizing i with
  | nil => simp at h
  | cons x xs ih =>
    cases i with
    | zero => simp [modifyIdx, total_visits_of]; omega
    | succ n =>
      have := ih n (by simpa using h)
      simp only [modifyIdx, total_visits_of, List.map_cons, List.sum_cons] at this ⊢
      omega

theorem total_visits_mcts_iteration (logf sqrtf : ℚ → ℚ) (c_puct : ℚ)
    (value_of : ℕ → ℕ → ℚ) (children : List MCTSChildStats) (it : ℕ) (h : children ≠ []) :
    total_visits_of (mcts_iteration logf sqrtf c_puct value_of children it)
      = total_visits_of children + 1 := by
  rw [mcts_iteration]
  exact total_visits_modifyIdx
    (fun x => qadd x (value_of it (select_child_ucb logf sqrtf c_puct children it))) children _
    (select_child_ucb_lt_length logf sqrtf c_puct children it h)

theorem length_mcts_iteration (logf sqrtf : ℚ → ℚ) (c_puct : ℚ)
    (value_of : ℕ → ℕ → ℚ) (children : List MCTSChildStats) (it : ℕ) :
    (mcts_iteration logf sqrtf c_puct value_of children it).length = children.length := by
  rw [mcts_iteration]
  exact length_modifyIdx _ _ _

theorem total_visits_foldl (logf sqrtf : ℚ → ℚ) (c_puct : ℚ) (value_of : ℕ → ℕ → ℚ)
    (its : List ℕ) (children : List MCTSChildStats) (h : children ≠ []) :
    total_visits_of (its.foldl (mcts_iteration logf sqrtf c_puct value_of) children)
      = total_visits_of children + its.length := by
  induction its generalizing children with
  | nil => simp
  | cons it rest ih =>
    have hne : mcts_iteration logf sqrtf c_puct value_of children it ≠ [] := by
      intro hc
      have := length_mcts_iteration logf sqrtf c_puct value_of children it
      rw [hc] at this
      exact h (List.eq_nil_of_length_eq_zero this.symm)
    rw [List.foldl_cons, ih _ hne,
      total_visits_mcts_iteration logf sqrtf c_puct value_of children it h,
      List.length_cons]
    omega

/-- C8: after the MCTS iteration loop finishes — whenever at least one root
arm was kept — the visit counts across the root arms sum to exactly the
configured iteration count: every round selects one arm by UCB1 (an index
that is always in range) and increments exactly that arm's visit count by
one, and no round is skipped.  `value_of` abstracts the rollout value of a
round (board clone, sequence application, random rollout, evaluator call),
which only feeds `value_sum`. -/
theorem C8_mcts_visit_conservation (logf sqrtf : ℚ → ℚ) (c_puct : ℚ)
    (value_of : ℕ → ℕ → ℚ) (iterations : ℕ) (seqs : List (List Action)) (h : seqs ≠ []) :
    total_visits_of
        (mcts_iterate logf sqrtf c_puct value_of iterations (mk_root_children seqs))
      = iterations := by
  have hne : mk_root_children seqs ≠ [] := by
    intro hc
    exact h (List.map_eq_nil_iff.mp hc)
  have h0 : total_visits_of (mk_root_children seqs) = 0 := by
    rw [total_visits_of, mk_root_children, List.map_map]
    exact List.sum_eq_zero (fun x hx => by
      obtain ⟨s, _, rfl⟩ := List.mem_map.mp hx
      rfl)
  rw [mcts_iterate, total_visits_foldl _ _ _ _ _ _ hne, h0, List.length_range]
  omega

theorem C8_witness :
    total_visits_of
        (mcts_iterate id id (mkRat 7 5) (fun _ _ => 0) 3 (mk_root_children [[]])) = 3 :=
  C8_mcts_visit_conservation id id (mkRat 7 5) (fun _ _ => 0) 3 [[]] (by decide)

/-! ### C9 — fitness normalised by matches actually played -/

theorem dict_add_mapped (l : List ℕ) (F : ℕ → ℚ) (k : ℕ) (v : ℚ) (hk : k ∈ l) :
    dict_add (l.map (fun g => (g, F g))) k v
      = some (l.map (fun g => (g, if g == k then qadd (F g) v else F g))) := by
  rw [dict_add, if_pos]
  · congr 1
    rw [List.map_map]
    apply List.map_congr_left
    intro g _
    by_cases hgk : (g == k) = true
    · simp [Function.comp, hgk]
    · simp [Function.comp, hgk]
  · rw [List.any_eq_true]
    exact ⟨(k, F k), List.mem_map_of_mem _ hk, by simp⟩

theorem dict_get_mapped (l : List ℕ) (F : ℕ → ℚ) (k : ℕ) (d : ℚ) (hk : k ∈ l) :
    dict_get (l.map (fun g => (g, F g))) k d = F k := by
  induction l with
  | nil => cases hk
  | cons x xs ih =>
    by_cases hx : (x == k) = true
    · have hxk : x = k := by simpa using hx
      subst hxk
      simp [dict_get, List.find?]
    · rcases List.mem_cons.mp hk with rfl | hmem
      · simp at hx
      · have := ih hmem
        simp only [dict_get, List.map_cons, List.find?, hx] at this ⊢
        exact this

theorem accum_match_foldlM (genome_ids : List ℕ) (results : List MatchResult)
    (hmem : ∀ r ∈ results, r.gid_a ∈ genome_ids ∧ r.gid_b ∈ genome_ids) (F C : ℕ → ℚ) :
    List.foldlM accum_match
        (genome_ids.map (fun g => (g, F g)), genome_ids.map (fun g => (g, C g))) results
      = some (genome_ids.map (fun g => (g, qadd (F g) (fitness_contrib_sum g results))),
              genome_ids.map (fun g => (g, qadd (C g) ((matches_played g results : ℕ) : ℚ)))) := by
  induction results generalizing F C with
  | nil =>
    simp only [List.foldlM_nil, fitness_contrib_sum, matches_played, Nat.cast_zero]
    congr 1 <;> congr 1 <;> exact List.map_congr_left (fun g _ => by simp [qadd_eq])
  | cons r rs ih =>
    have hr := hmem r (List.mem_cons_self r rs)
    have hrs : ∀ x ∈ rs, x.gid_a ∈ genome_ids ∧ x.gid_b ∈ genome_ids :=
      fun x hx => hmem x (List.mem_cons_of_mem r hx)
    rw [List.foldlM_cons]
    have hstep : accum_match
        (genome_ids.map (fun g => (g, F g)), genome_ids.map (fun g => (g, C g))) r
        = some
          (genome_ids.map (fun g => (g,
            if g == r.gid_b then
              qadd (if g == r.gid_a then qadd (F g) r.fit_a else F g) r.fit_b
            else if g == r.gid_a then qadd (F g) r.fit_a else F g)),
           genome_ids.map (fun g => (g,
            if g == r.gid_b then
              qadd (if g == r.gid_a then qadd (C g) 1 else C g) 1
            else if g == r.gid_a then qadd (C g) 1 else C g))) := by
      rw [accum_match]
      rw [dict_add_mapped genome_ids F r.gid_a r.fit_a hr.1]
      dsimp only
      rw [dict_add_mapped genome_ids
        (fun g => if g == r.gid_a then qadd (F g) r.fit_a else F g) r.gid_b r.fit_b hr.2]
      dsimp only
      rw [dict_add_mapped genome_ids C r.gid_a 1 hr.1]
      dsimp only
      rw [dict_add_mapped genome_ids
        (fun g => if g == r.gid_a then qadd (C g) 1 else C g) r.gid_b 1 hr.2]
    rw [hstep]
    show List.foldlM accum_match _ rs = _
    rw [ih hrs]
    simp only [Option.some.injEq, Prod.mk.injEq]
    constructor
    · apply List.map_congr_left
      intro g _
      simp only [Prod.mk.injEq, true_and, qadd_eq, fitness_contrib_sum]
      split_ifs <;> ring
    · apply List.map_congr_left
      intro g _
      simp only [Prod.mk.injEq, true_and, qadd_eq, matches_played]
      push_cast
      split_ifs <;> ring

/-- C9: `eval_genomes` assigns every genome of the generation the sum of its
per-match fitness contributions divided by the number of matches it actually
played (both sides of every completed match count), with the divisor floored
at one — the configured match maximum never enters the normalisation. -/
theorem C9_fitness_normalised_by_matches_played (genome_ids : List ℕ)
    (results : List MatchResult)
    (hmem : ∀ r ∈ results, r.gid_a ∈ genome_ids ∧ r.gid_b ∈ genome_ids) :
    eval_genomes_fitness genome_ids results
      = some (genome_ids.map (fun g =>
          (g, qdiv (fitness_contrib_sum g results)
                (max 1 ((matches_played g results : ℕ) : ℚ))))) := by
  rw [eval_genomes_fitness]
  rw [show genome_ids.map (fun g => (g, (0 : ℚ)))
      = genome_ids.map (fun g => (g, (fun _ : ℕ => (0 : ℚ)) g)) from rfl]
  rw [accum_match_foldlM genome_ids results hmem (fun _ => 0) (fun _ => 0)]
  dsimp only
  congr 1
  apply List.map_congr_left
  intro g hg
  rw [dict_get_mapped genome_ids _ g 0 hg, dict_get_mapped genome_ids _ g 0 hg]
  have h1 : qadd 0 (fitness_contrib_sum g results) = fitness_contrib_sum g results := by
    rw [qadd_eq]
    ring
  have h2 : qadd 0 ((matches_played g results : ℕ) : ℚ) = ((matches_played g results : ℕ) : ℚ) := by
    rw [qadd_eq]
    ring
  rw [h1, h2]

theorem C9_witness :
    eval_genomes_fitness [1, 2] [⟨1, 2, 3, 4⟩]
      = some [(1, qdiv (fitness_contrib_sum 1 [⟨1, 2, 3, 4⟩])
                (max 1 ((matches_played 1 [⟨1, 2, 3, 4⟩] : ℕ) : ℚ))),
              (2, qdiv (fitness_contrib_sum 2 [⟨1, 2, 3, 4⟩])
                (max 1 ((matches_played 2 [⟨1, 2, 3, 4⟩] : ℕ) : ℚ)))] :=
  C9_fitness_normalised_by_matches_played [1, 2] [⟨1, 2, 3, 4⟩] (by decide)

/-! ### C3 — legal actions succeed on the unchanged state -/

theorem find_by_id_eq (l : List Unit) (u : Unit)
    (hid : l.Pairwise (fun a b => a.id ≠ b.id)) (hu : u ∈ l) :
    l.find? (fun v => v.id == u.id) = some u := by
  induction l with
  | nil => cases hu
  | cons x xs ih =>
    rcases List.mem_cons.mp hu with rfl | hmem
    · exact List.find?_cons_of_pos xs (by simp)
    · have hx : x.id ≠ u.id := (List.pairwise_cons.mp hid).1 u hmem
      rw [List.find?_cons_of_neg xs (by simpa using hx)]
      exact ih (List.pairwise_cons.mp hid).2 hmem

theorem eq_of_mem_pairwise_key (f : α → β) (l : List α)
    (h : l.Pairwise (fun a b => f a ≠ f b)) {a b : α}
    (ha : a ∈ l) (hb : b ∈ l) (hf : f a = f b) : a = b := by
  induction l with
  | nil => cases ha
  | cons x xs ih =>
    have hp := List.pairwise_cons.mp h
    rcases List.mem_cons.mp ha with rfl | ha' <;> rcases List.mem_cons.mp hb with rfl | hb'
    · rfl
    · exact absurd hf (hp.1 b hb')
    · exact absurd hf.symm (hp.1 a ha')
    · exact ih hp.2 ha' hb'

/-- C3: on a state whose units have distinct ids and distinct positions (both
hold on every reachable board — ids come from a global counter and a tile
holds at most one unit) and in which every unit that has attacked has at most
`EPSILON` move points left (`apply_attack` zeroes the attacker's move points,
and `turn_begin_reset` clears the flag while restoring them), every action
`get_legal_actions` returns succeeds when applied to that same unchanged
state: a returned move makes `move_unit` return true, a returned attack makes
`apply_attack` return true, and the attacker of a returned attack never has
`has_attacked` already set. -/
theorem C3_legal_actions_sound (gs : GameState) (team : ℤ)
    (hid : gs.units.Pairwise (fun a b => a.id ≠ b.id))
    (hpos : gs.units.Pairwise (fun a b => (a.x, a.y) ≠ (b.x, b.y)))
    (hatt : ∀ u ∈ gs.units, u.has_attacked = true → u.move_points ≤ EPSILON) :
    ∀ a ∈ get_legal_actions gs team,
      (∀ uid tx ty, a = Action.move uid tx ty → (move_unit gs uid tx ty).1 = true) ∧
      (∀ aid did, a = Action.attack aid did →
        (apply_attack gs aid did).1 = true ∧
        ∀ w, gs.get_unit_by_id aid = some w → w.has_attacked = false) := by
  intro a ha
  rw [get_legal_actions, List.mem_flatMap] at ha
  obtain ⟨u, hu_filter, ha⟩ := ha
  rw [List.mem_filter] at hu_filter
  obtain ⟨hu_mem, hu_cond⟩ := hu_filter
  have hmp : EPSILON < u.move_points := by
    simp only [Bool.and_eq_true, decide_eq_true_eq] at hu_cond
    exact hu_cond.2
  have hu_noatt : u.has_attacked = false := by
    by_contra hc
    have hc' : u.has_attacked = true := by
      revert hc
      cases u.has_attacked <;> simp
    exact absurd (hatt u hu_mem hc') (not_le.mpr hmp)
  have hu_find : gs.get_unit_by_id u.id = some u := find_by_id_eq gs.units u hid hu_mem
  rw [List.mem_append, List.mem_append] at ha
  rcases ha with (hmv | hat) | hwt
  · -- a move action
    rw [List.mem_map] at hmv
    obtain ⟨p, hp_tiles, rfl⟩ := hmv
    rw [get_movable_tiles, List.mem_flatMap] at hp_tiles
    obtain ⟨x, _, hp_tiles⟩ := hp_tiles
    rw [List.mem_filterMap] at hp_tiles
    obtain ⟨y, _, hy⟩ := hp_tiles
    have hcm : can_move gs u (x : ℤ) (y : ℤ) = true ∧ p = ((x : ℤ), (y : ℤ)) := by
      by_cases hc : can_move gs u (x : ℤ) (y : ℤ) = true
      · simp only [hc, if_true, Option.some.injEq] at hy
        exact ⟨hc, hy.symm⟩
      · simp [hc] at hy
    obtain ⟨hcm, rfl⟩ := hcm
    constructor
    · intro uid tx ty heq
      obtain ⟨rfl, rfl, rfl⟩ : u.id = uid ∧ (x : ℤ) = tx ∧ (y : ℤ) = ty := by
        cases heq
        exact ⟨rfl, rfl, rfl⟩
      have hcost : compute_min_cost_gs gs (u.x, u.y) ((x : ℤ), (y : ℤ)) ≤ u.move_points := by
        simp only [can_move, Bool.and_eq_true, decide_eq_true_eq] at hcm
        exact hcm.2
      have hmut : move_unit_mut gs u.id (x : ℤ) (y : ℤ) ≠ none := by
        rw [move_unit_mut, hu_find]
        dsimp only
        rw [if_neg (by simp [hcm])]
        rw [if_neg (by simpa using not_lt.mpr hcost)]
        simp
      rw [move_unit]
      rcases hopt : move_unit_mut gs u.id (x : ℤ) (y : ℤ) with _ | l
      · exact absurd hopt hmut
      · rfl
    · intro aid did heq
      cases heq
  · -- an attack action
    rw [List.mem_filterMap] at hat
    obtain ⟨p, hp_tiles, hmap⟩ := hat
    rw [Option.map_eq_some'] at hmap
    obtain ⟨d, hd_find, rfl⟩ := hmap
    rw [get_attackable_tiles, List.mem_filterMap] at hp_tiles
    obtain ⟨t, ht_mem, hti⟩ := hp_tiles
    have hca : can_attack u t = true ∧ p = (t.x, t.y) := by
      by_cases hc : can_attack u t = true
      · simp only [hc, if_true, Option.some.injEq] at hti
        exact ⟨hc, hti.symm⟩
      · simp [hc] at hti
    obtain ⟨hca, rfl⟩ := hca
    have hd_mem : d ∈ gs.units := List.mem_of_find?_eq_some hd_find
    have hd_pos : d.x = t.x ∧ d.y = t.y := by
      have := List.find?_some hd_find
      simpa using this
    have hdt : d = t :=
      eq_of_mem_pairwise_key (fun v => (v.x, v.y)) gs.units hpos hd_mem ht_mem
        (by simp only [hd_pos.1, hd_pos.2])
    subst hdt
    constructor
    · intro uid tx ty heq
      cases heq
    · intro aid did heq
      obtain ⟨rfl, rfl⟩ : u.id = aid ∧ d.id = did := by
        cases heq
        exact ⟨rfl, rfl⟩
      have hd_findid : gs.get_unit_by_id d.id = some d := find_by_id_eq gs.units d hid hd_mem
      refine ⟨?_, ?_⟩
      · rw [apply_attack, apply_attack_mut, hu_find, hd_findid]
        simp [hu_noatt, hca]
      · intro w hw
        rw [hu_find] at hw
        cases hw
        exact hu_noatt
  · -- the wait action
    have hwt' : a = Action.wait u.id := by simpa using hwt
    subst hwt'
    constructor
    · intro _ _ _ heq
      cases heq
    · intro _ _ heq
      cases heq

/-- Witness board for C3: a 1×3 all-plain strip, a team-1 Archer at (0,0)
facing a team-2 Swordsman at (0,2); the legal actions contain both a move and
an attack, and both succeed. -/
def C3_board : GameState :=
  ⟨1, 3, [[TileType.plain], [TileType.plain], [TileType.plain]],
    [mkArcher 1 0 0 1, mkSwordsman 2 0 2 2]⟩

theorem C3_witness :
    (Action.move 1 0 1 ∈ get_legal_actions C3_board 1 ∧ (move_unit C3_board 1 0 1).1 = true) ∧
    (Action.attack 1 2 ∈ get_legal_actions C3_board 1 ∧ (apply_attack C3_board 1 2).1 = true) := by
  refine ⟨⟨by decide, ?_⟩, ⟨by decide, ?_⟩⟩
  · exact (C3_legal_actions_sound C3_board 1 (by decide) (by decide) (by decide)
      (Action.move 1 0 1) (by decide)).1 1 0 1 rfl
  · exact ((C3_legal_actions_sound C3_board 1 (by decide) (by decide) (by decide)
      (Action.attack 1 2) (by decide)).2 1 2 rfl).1

/-! ### C7 — the minimax agent's evaluator perspective is fixed -/

theorem get_children_congr (e₁ e₂ : GameState → ℤ → ℚ) (seqs : ℤ → List (List Action))
    (tid : ℤ) (cl : ℕ) (h : ∀ s, e₁ s tid = e₂ s tid) (gs : GameState) (acting : ℤ) :
    get_children e₁ seqs tid cl gs acting = get_children e₂ seqs tid cl gs acting := by
  rw [get_children, get_children]
  dsimp only
  have hmap : (seqs acting).map
        (fun s => (s, e₁ (child_replay gs acting s) tid, child_replay gs acting s))
      = (seqs acting).map
        (fun s => (s, e₂ (child_replay gs acting s) tid, child_replay gs acting s)) :=
    List.map_congr_left (fun s _ => by rw [h (child_replay gs acting s)])
  rw [hmap]

theorem mm_max_fold_congr (f₁ f₂ : GameState → MMVal → MMVal → MMVal)
    (hf : ∀ c a b, f₁ c a b = f₂ c a b) :
    ∀ (l : List (List Action × GameState)) (best alpha beta : MMVal),
      mm_max_fold f₁ l best alpha beta = mm_max_fold f₂ l best alpha beta := by
  intro l
  induction l with
  | nil => intro best alpha beta; rfl
  | cons c rest ih =>
    intro best alpha beta
    rw [mm_max_fold, mm_max_fold, hf]
    split <;> split <;> split <;> first | rfl | exact ih _ _ _

theorem mm_min_fold_congr (f₁ f₂ : GameState → MMVal → MMVal → MMVal)
    (hf : ∀ c a b, f₁ c a b = f₂ c a b) :
    ∀ (l : List (List Action × GameState)) (best alpha beta : MMVal),
      mm_min_fold f₁ l best alpha beta = mm_min_fold f₂ l best alpha beta := by
  intro l
  induction l with
  | nil => intro best alpha beta; rfl
  | cons c rest ih =>
    intro best alpha beta
    rw [mm_min_fold, mm_min_fold, hf]
    split <;> split <;> split <;> first | rfl | exact ih _ _ _

theorem minimax_congr (e₁ e₂ : GameState → ℤ → ℚ)
    (cg₁ cg₂ : GameState → ℤ → List (List Action × GameState)) (tid : ℤ)
    (he : ∀ s, e₁ s tid = e₂ s tid) (hcg : ∀ gs t, cg₁ gs t = cg₂ gs t) :
    ∀ (depth : ℕ) (sim : GameState) (alpha beta : MMVal) (is_max : Bool),
      minimax e₁ cg₁ tid depth sim alpha beta is_max
        = minimax e₂ cg₂ tid depth sim alpha beta is_max := by
  intro depth
  induction depth with
  | zero =>
    intro sim alpha beta is_max
    rw [minimax, minimax, he]
  | succ d ih =>
    intro sim alpha beta is_max
    rw [minimax, minimax]
    split
    · rw [he]
    · dsimp only
      rw [hcg]
      split <;> split <;>
        first
          | rw [he]
          | exact mm_max_fold_congr _ _ (fun c a b => ih c a b false) _ _ _ _
          | exact mm_min_fold_congr _ _ (fun c a b => ih c a b true) _ _ _ _

/-- C7: every evaluator consultation the minimax agent makes during one
top-level decision — terminal nodes at depth zero or game over, nodes with no
children, and the scoring of candidate children for pruning, at every depth
and at MAX nodes and MIN nodes alike — uses the agent's own team id as the
perspective: two evaluators that agree from `tid`'s perspective (but may
differ arbitrarily from every other perspective) produce the same value at
every search node (first conjunct) and the same chosen sequence at the root
(second conjunct). -/
theorem C7_minimax_eval_perspective_fixed (e₁ e₂ : GameState → ℤ → ℚ)
    (seqs : ℤ → List (List Action)) (depth child_limit : ℕ) (tid : ℤ) (board : GameState)
    (h : ∀ s, e₁ s tid = e₂ s tid) :
    (∀ (d : ℕ) (sim : GameState) (alpha beta : MMVal) (is_max : Bool),
      minimax e₁ (get_children e₁ seqs tid child_limit) tid d sim alpha beta is_max
        = minimax e₂ (get_children e₂ seqs tid child_limit) tid d sim alpha beta is_max) ∧
    execute_next_actions e₁ seqs depth child_limit tid board
      = execute_next_actions e₂ seqs depth child_limit tid board := by
  have hcg : ∀ gs t, get_children e₁ seqs tid child_limit gs t
      = get_children e₂ seqs tid child_limit gs t :=
    get_children_congr e₁ e₂ seqs tid child_limit h
  have hmm := minimax_congr e₁ e₂ _ _ tid h hcg
  refine ⟨hmm, ?_⟩
  rw [execute_next_actions, execute_next_actions]
  have hfun : get_children e₁ seqs tid child_limit = get_children e₂ seqs tid child_limit :=
    funext (fun gs => funext (fun t => hcg gs t))
  rw [hfun]
  have hstep : (fun (acc : Option (List Action) × MMVal) (c : List Action × GameState) =>
        let score := minimax e₁ (get_children e₂ seqs tid child_limit) tid depth c.2 ⊥ posInf false
        if acc.2 < score then (some c.1, score) else acc)
      = (fun (acc : Option (List Action) × MMVal) (c : List Action × GameState) =>
        let score := minimax e₂ (get_children e₂ seqs tid child_limit) tid depth c.2 ⊥ posInf false
        if acc.2 < score then (some c.1, score) else acc) := by
    funext acc c
    have hmm2 := minimax_congr e₁ e₂ (get_children e₂ seqs tid child_limit)
      (get_children e₂ seqs tid child_limit) tid h (fun _ _ => rfl) depth c.2 ⊥ posInf false
    dsimp only
    rw [hmm2]
  rw [hstep]

/-- Witness for C7: a 1×2 board with one unit per team; the two evaluators
agree from team 1's perspective and disagree from team 2's. -/
def C7_board : GameState :=
  ⟨1, 2, [[TileType.plain], [TileType.plain]],
    [mkSwordsman 1 0 0 1, mkSwordsman 2 0 1 2]⟩

theorem C7_witness :
    execute_next_actions (fun _ t => if t == 2 then 5 else 0) (fun _ => [[Action.wait 1]])
        1 6 1 C7_board
      = execute_next_actions (fun _ t => if t == 2 then 7 else 0) (fun _ => [[Action.wait 1]])
        1 6 1 C7_board :=
  (C7_minimax_eval_perspective_fixed (fun _ t => if t == 2 then 5 else 0)
    (fun _ t => if t == 2 then 7 else 0) (fun _ => [[Action.wait 1]]) 1 6 1 C7_board
    (fun _ => rfl)).2

end Game
